import Mathlib

/-!
Verification of the pandas-data-cleaner repository: a shallow embedding of
the strategy abstraction and pipeline driver (`src/data_cleaners/base.py`),
the built-in strategies (`src/data_cleaners/strategies.py`), the legacy
model-sourced variant (`src/data_cleaners/methods.py`) and the exception
type (`src/pandas_data_cleaner/exceptions.py`).

Tables (pandas DataFrames) are modelled as a list of column labels together
with index-labelled rows of cell values.  In-place mutation of the working
table is modelled by explicit state passing; for the isolation claim about
`clean_data` a small heap of dataframes makes the driver's initial
`dataframe.copy()` observable.  Fallible operations return `Except`.
-/

/-- Cell values appearing in the dataframes of the repository's tests:
integers, strings and booleans. -/
inductive Value where
  | int (n : Int)
  | str (s : String)
  | bool (b : Bool)
deriving DecidableEq, Repr

/-- A pandas DataFrame: column labels and index-labelled rows.  Each row is
an index label paired with the list of cell values, positionally aligned
with `cols`. -/
structure DataFrame where
  cols : List String
  rows : List (Nat × List Value)
deriving DecidableEq, Repr

/-- The empty dataframe, used only as a default for out-of-range heap reads. -/
def emptyDF : DataFrame := ⟨[], []⟩

/-- Values an option (a Python keyword argument) can take in this model:
a string, a boolean, a list of strings, a string-to-string mapping, or a
dataframe. -/
inductive OptVal where
  | str (s : String)
  | bool (b : Bool)
  | strList (l : List String)
  | strMap (m : List (String × String))
  | df (d : DataFrame)
deriving DecidableEq, Repr

/-- The keyword options passed to `clean_data` and bound onto a strategy
instance by `CleaningStrategy.__init__` via `setattr`. -/
abbrev Options := List (String × OptVal)

/-- Python errors surfaced by the embedded code paths. -/
inductive PyErr where
  | keyError (s : String)
  | attributeError (s : String)
  | typeError (s : String)
  | valueError (s : String)
  | notImplementedError (s : String)
deriving DecidableEq, Repr

/-- Errors a pipeline run can end with: the repository's
`MissingOptionsError` (carrying the list of missing option names, as in
`src/pandas_data_cleaner/exceptions.py`) or a propagated Python error. -/
inductive Err where
  | missingOptions (l : List String)
  | py (e : PyErr)
deriving DecidableEq, Repr

instance {ε α : Type} [DecidableEq ε] [DecidableEq α] : DecidableEq (Except ε α) := fun a b =>
  match a, b with
  | .ok x, .ok y =>
    if h : x = y then isTrue (by rw [h]) else isFalse (fun hh => by cases hh; exact h rfl)
  | .error x, .error y =>
    if h : x = y then isTrue (by rw [h]) else isFalse (fun hh => by cases hh; exact h rfl)
  | .ok _, .error _ => isFalse (fun hh => by cases hh)
  | .error _, .ok _ => isFalse (fun hh => by cases hh)

/-! ## Character-list helpers for `info()` -/

/-- Whether `p` is an initial segment of `s` (character lists). -/
def startsWith : List Char → List Char → Bool
  | [], _ => true
  | _ :: _, [] => false
  | p :: ps, c :: cs => p == c && startsWith ps cs

/-- Whether `pat` occurs contiguously inside `s` (character lists). -/
def hasSubstring (pat : List Char) : List Char → Bool
  | [] => startsWith pat []
  | c :: rest => startsWith pat (c :: rest) || hasSubstring pat rest

/-- Python's `str.replace` for a non-empty pattern `p :: ps`: scan left to
right, replacing each non-overlapping occurrence by `rep`.  The fuel
argument makes the recursion structural; each step consumes at least one
input character, so fuel equal to the input length always suffices. -/
def pyReplaceF (p : Char) (ps rep : List Char) : Nat → List Char → List Char
  | 0, s => s
  | _ + 1, [] => []
  | fuel + 1, c :: rest =>
    if startsWith (p :: ps) (c :: rest) then
      rep ++ pyReplaceF p ps rep fuel (rest.drop ps.length)
    else
      c :: pyReplaceF p ps rep fuel rest

/-- Python's `str.replace` for a non-empty pattern `p :: ps`. -/
def pyReplace (p : Char) (ps rep : List Char) (s : List Char) : List Char :=
  pyReplaceF p ps rep s.length s

/-- The body of `CleaningStrategy.info` (`src/data_cleaners/base.py`):
`doc.replace('    ', '').replace('\t', '').replace('\n', ' ')`. -/
def infoOf (doc : List Char) : List Char :=
  pyReplace '\n' [] [' '] (pyReplace '\t' [] [] (pyReplace ' ' [' ', ' ', ' '] [] doc))

/-- Split a character list into lines at newline characters. -/
def splitLines : List Char → List (List Char)
  | [] => [[]]
  | c :: rest =>
    if c = '\n' then [] :: splitLines rest
    else
      match splitLines rest with
      | l :: ls => (c :: l) :: ls
      | [] => [[c]]

/-- Remove the leading indentation (spaces and tabs) of one line. -/
def stripLead (l : List Char) : List Char :=
  l.dropWhile (fun c => c == ' ' || c == '\t')

/-- Modelled from the spec: the documentation string normalized to a single
line, with leading indentation removed and each newline collapsed to a
single space.  Used only to compare the spec's description of `info()`
against the code's transformation `infoOf`. -/
def specNormalize (doc : List Char) : List Char :=
  List.intercalate [' '] ((splitLines doc).map stripLead)

/-! ## Strategy instance attribute model

`CleaningStrategy.__init__` stores the dataframe, sets
`dataset_has_been_reversed`, and binds every keyword option onto the
instance with `setattr`.  Attribute lookup on the instance therefore sees:
the two fields set by `__init__`, the option keys, and the class attributes
of `CleaningStrategy` (its declared `required_options` and its methods). -/

/-- The attribute names every `CleaningStrategy` subclass inherits from the
class body of `CleaningStrategy` in `src/data_cleaners/base.py`. -/
def baseClassAttrs : List String :=
  ["required_options", "info", "can_use_cleaner", "validate_options", "clean"]

/-- Python's `hasattr(self, name)` on a strategy instance constructed with
the given options: instance attributes set in `__init__` first, then the
option keys bound by `setattr`, then the class attributes. -/
def hasattrB (opts : Options) (name : String) : Bool :=
  name == "dataframe" || name == "dataset_has_been_reversed" ||
  (List.lookup name opts).isSome || baseClassAttrs.contains name

/-- A cleaning strategy class: its declared `required_options` class
attribute, its docstring, and its `clean` method acting on the stored
dataframe given the bound options. -/
structure StrategyClass where
  name : String
  required_options : List String
  doc : String
  cleanFn : DataFrame → Options → Except PyErr DataFrame

/-- The sequence iterated by `for option in self.required_options`: the
instance attribute bound by `setattr` when the options contain a key
`required_options`, iterated as Python iterates that value — a list yields
its elements, a string its characters, a dict its keys, a DataFrame its
column labels, and a non-iterable (a bool here) raises `TypeError`;
without an override, the class-declared list. -/
def requiredOptionsOf (cls : StrategyClass) (opts : Options) : Except PyErr (List String) :=
  match List.lookup "required_options" opts with
  | some (.strList l) => .ok l
  | some (.str s) => .ok (s.data.map (fun c => String.mk [c]))
  | some (.strMap m) => .ok (m.map (fun q => q.1))
  | some (.df d) => .ok d.cols
  | some (.bool _) => .error (.typeError "required_options object is not iterable")
  | none => .ok cls.required_options

/-- The loop of `CleaningStrategy.can_use_cleaner`: the names of
`self.required_options` for which `hasattr(self, option)` fails, in
iteration order; iterating a non-iterable binding raises `TypeError`. -/
def missingOf (cls : StrategyClass) (opts : Options) : Except PyErr (List String) :=
  match requiredOptionsOf cls opts with
  | .error e => .error e
  | .ok req => .ok (req.filter (fun o => !(hasattrB opts o)))

/-- `CleaningStrategy.can_use_cleaner` (`src/data_cleaners/base.py`):
returns `(len(missing_options) == 0, missing_options)`, or propagates the
`TypeError` raised by its loop. -/
def canUseCleaner (cls : StrategyClass) (opts : Options) : Except PyErr (Bool × List String) :=
  match missingOf cls opts with
  | .error e => .error e
  | .ok m => .ok (m.isEmpty, m)

/-- `CleaningStrategy.validate_options`: raises
`MissingOptionsError(missing_options)` when `can_use_cleaner` reports the
strategy unusable; an error raised inside `can_use_cleaner` propagates. -/
def validateOptions (cls : StrategyClass) (opts : Options) : Except Err Unit :=
  match canUseCleaner cls opts with
  | .error e => .error (.py e)
  | .ok cu => if cu.1 then .ok () else .error (.missingOptions cu.2)

/-- Python's `getattr(self, name)` for an option-backed attribute read by a
strategy's `clean`: the bound option value, or `AttributeError`. -/
def getattrO (opts : Options) (name : String) : Except PyErr OptVal :=
  match List.lookup name opts with
  | some v => .ok v
  | none => .error (.attributeError name)

/-! ## Table operations (the pandas collaborator) -/

/-- Position of a column label among the column list (defined when the
label occurs). -/
def colIdx (cols : List String) (c : String) : Nat :=
  cols.findIdx (fun c2 => c2 == c)

/-- The deduplication key of a row: its cell values at the subset columns. -/
def keyFn (cols subset : List String) (row : List Value) : List Value :=
  subset.map (fun c => row.getD (colIdx cols c) (.int 0))

/-- Pandas `keep='first'`: a row survives when its key has not occurred
earlier (`seen` accumulates the keys of kept earlier rows). -/
def dedupFirstAux (key : List Value → List Value) (seen : List (List Value)) :
    List (Nat × List Value) → List (Nat × List Value)
  | [] => []
  | r :: rest =>
    if key r.2 ∈ seen then dedupFirstAux key seen rest
    else r :: dedupFirstAux key (key r.2 :: seen) rest

/-- Pandas `keep='last'`: a row survives when no later row has the same
key; surviving rows keep their original order. -/
def dedupLastBy (key : List Value → List Value) :
    List (Nat × List Value) → List (Nat × List Value)
  | [] => []
  | r :: rest =>
    if ∀ p ∈ rest, key p.2 ≠ key r.2 then r :: dedupLastBy key rest
    else dedupLastBy key rest

/-- Pandas `keep=False`: a row survives only when its key occurs exactly
once in the whole table. -/
def dedupDropAll (key : List Value → List Value) (rows : List (Nat × List Value)) :
    List (Nat × List Value) :=
  rows.filter (fun r => (rows.filter (fun p => decide (key p.2 = key r.2))).length == 1)

/-- The keep-policy of `DataFrame.drop_duplicates`. -/
inductive KeepPolicy where
  | first
  | last
  | dropAll
deriving DecidableEq, Repr

/-- `DataFrame.drop_duplicates(subset=subset, keep=keep, inplace=True)`:
rows are grouped by their values at the subset columns and resolved by the
keep-policy; pandas raises `KeyError` when a subset label is not a column. -/
def dropDuplicates (df : DataFrame) (subset : List String) (keep : KeepPolicy) :
    Except PyErr DataFrame :=
  if ∀ c ∈ subset, c ∈ df.cols then
    let key := keyFn df.cols subset
    match keep with
    | .first => .ok ⟨df.cols, dedupFirstAux key [] df.rows⟩
    | .last => .ok ⟨df.cols, dedupLastBy key df.rows⟩
    | .dropAll => .ok ⟨df.cols, dedupDropAll key df.rows⟩
  else .error (.keyError "drop_duplicates subset")

/-- `DataFrame.rename(columns=m, inplace=True)`: mapped labels are renamed,
labels absent from the mapping are untouched, keys absent from the table
are ignored. -/
def renameCols (df : DataFrame) (m : List (String × String)) : DataFrame :=
  ⟨df.cols.map (fun c => (List.lookup c m).getD c), df.rows⟩

/-- The cell values of one column (`df[field]`), defined when the label is
a column of `df`. -/
def colVals (df : DataFrame) (field : String) : List Value :=
  df.rows.map (fun p => p.2.getD (colIdx df.cols field) (.int 0))

/-- The body of `FilterValidForeignKeys.clean`
(`src/data_cleaners/strategies.py`): the foreign-key values of `df` that
do not occur in the primary-key column of `fkdf` are collected and the
rows holding them dropped in place. -/
def fkFilter (df fkdf : DataFrame) (pkField fkField : String) : Except PyErr DataFrame :=
  if fkField ∈ df.cols then
    if pkField ∈ fkdf.cols then
      let uniqueFk := colVals df fkField
      let uniquePk := colVals fkdf pkField
      let invalid := uniqueFk.filter (fun v => !(decide (v ∈ uniquePk)))
      .ok ⟨df.cols, df.rows.filter
        (fun p => !(decide (p.2.getD (colIdx df.cols fkField) (.int 0) ∈ invalid)))⟩
    else .error (.keyError pkField)
  else .error (.keyError fkField)

/-- `DataFrame.drop(labels, axis=1, inplace=True)`: the named columns are
removed; pandas raises `KeyError` when a label is not a column. -/
def dropCols (df : DataFrame) (labels : List String) : Except PyErr DataFrame :=
  if ∀ c ∈ labels, c ∈ df.cols then
    .ok ⟨df.cols.filter (fun c => !(labels.contains c)),
      df.rows.map (fun p =>
        (p.1, ((df.cols.zip p.2).filter (fun q => !(labels.contains q.1))).map (fun q => q.2)))⟩
  else .error (.keyError "drop columns")

/-! ## Built-in strategies (`src/data_cleaners/strategies.py`) -/

/-- `RemoveDuplicates.clean`: reads the two option-backed attributes and
calls `drop_duplicates` in place.  The keep option is interpreted as pandas
does: the strings `first` and `last`, or the boolean `False` for
drop-all; any other value is rejected by pandas. -/
def removeDuplicatesClean (df : DataFrame) (opts : Options) : Except PyErr DataFrame := do
  let sf ← getattrO opts "remove_duplicates_subset_fields"
  let kp ← getattrO opts "remove_duplicates_keep"
  let subset ← match sf with
    | .strList l => pure l
    | _ => throw (.typeError "remove_duplicates_subset_fields")
  let keep ← match kp with
    | .str "first" => pure KeepPolicy.first
    | .str "last" => pure KeepPolicy.last
    | .bool false => pure KeepPolicy.dropAll
    | _ => throw (.valueError "keep")
  dropDuplicates df subset keep

/-- `RenameHeaders.clean`: reads the header map and renames in place. -/
def renameHeadersClean (df : DataFrame) (opts : Options) : Except PyErr DataFrame := do
  let m ← getattrO opts "rename_headers_header_map"
  match m with
  | .strMap mm => pure (renameCols df mm)
  | _ => throw (.typeError "rename_headers_header_map")

/-- `FilterValidForeignKeys.clean`: reads the three option-backed
attributes and drops the rows holding invalid foreign keys. -/
def filterValidForeignKeysClean (df : DataFrame) (opts : Options) : Except PyErr DataFrame := do
  let fd ← getattrO opts "filter_valid_fk_df"
  let pk ← getattrO opts "filter_valid_pk_field"
  let fk ← getattrO opts "filter_valid_fk_field"
  match fd, pk, fk with
  | .df fkdf, .str pkField, .str fkField => fkFilter df fkdf pkField fkField
  | _, _, _ => throw (.typeError "filter_valid_fk options")

/-- `RemoveColumns.clean`: reads the column list and drops the columns. -/
def removeColumnsClean (df : DataFrame) (opts : Options) : Except PyErr DataFrame := do
  let rc ← getattrO opts "remove_columns"
  match rc with
  | .strList l => dropCols df l
  | _ => throw (.typeError "remove_columns")

def docBaseCleaningStrategy : String := "This class defines the strategy for cleaning data."

def docStratRemoveDuplicates : String := "Deletes duplicate data from the dataframe.\n\n    Required options:\n        \x60remove_duplicates_subset_fields\x60 - (_t.List[str]) A list of fields\n            to check for duplicates.\n        \x60remove_duplicates_keep\x60 - (\x27first\x27|\x27last\x27|False) Whether to keep\n            the first or last occurrence of a duplicate  or drop all\n            duplicates.\n            More information available at:\n            https://pandas.pydata.org/docs/reference/api/pandas.DataFrame.drop_duplicates.html#pandas.DataFrame.drop_duplicates\n    "

def docStratRenameHeaders : String := "Renames the headers of the dataframe.\n\n    Required options:\n        \x60rename_headers_header_map\x60 - (_t.Dict[str, str]) A dictionary\n            mapping the old header names to the new header names.\n    "

def docStratFilterValidForeignKeys : String := "This is a Django only method.\n    Where a dataframe is being cleaned where a field in the dataframe must\n    exist in another dataframe, this method will filter out any rows that\n    contain invalid foreign keys.\n\n    Required options:\n        \x60filter_valid_fk_df\x60 - (pd.DataFrame) The dataframe which this\n            dataframe is being compared to.\n        \x60filter_valid_pk_field\x60 - (str) The field in the compared dataframe\n            which contains the primary key.\n        \x60filter_valid_fk_field\x60 - (str) The field in the this dataframe which\n            contains the foreign key.\n    "

def docStratRemoveColumns : String := "Removes columns from a dataframe.\n\n    Required options:\n        \x60remove_columns\x60 - (_t.List[str]) A list of columns to remove.\n    "

def docMethRemoveDuplicates : String := "Deletes duplicate data from the dataframe keeping on the last row."

def docMethRenameHeaders : String := "Renames the headers of the dataframe."

def docMethDjFilterValidForeignKeys : String := "This is a Django only method.\n    Where a data that is being imported contains foreign key(s), check that\n    the respective primary key exists in the database table which the foreign\n    key is associated with.\n    "

def docMethRemoveColumns : String := "Removes columns from a dataframe."

/-- The `RemoveDuplicates` class of `src/data_cleaners/strategies.py`. -/
def RemoveDuplicatesC : StrategyClass :=
  { name := "RemoveDuplicates"
    required_options := ["remove_duplicates_subset_fields", "remove_duplicates_keep"]
    doc := docStratRemoveDuplicates
    cleanFn := removeDuplicatesClean }

/-- The `RenameHeaders` class of `src/data_cleaners/strategies.py`. -/
def RenameHeadersC : StrategyClass :=
  { name := "RenameHeaders"
    required_options := ["rename_headers_header_map"]
    doc := docStratRenameHeaders
    cleanFn := renameHeadersClean }

/-- The `FilterValidForeignKeys` class of `src/data_cleaners/strategies.py`. -/
def FilterValidForeignKeysC : StrategyClass :=
  { name := "FilterValidForeignKeys"
    required_options := ["filter_valid_fk_df", "filter_valid_pk_field", "filter_valid_fk_field"]
    doc := docStratFilterValidForeignKeys
    cleanFn := filterValidForeignKeysClean }

/-- The `RemoveColumns` class of `src/data_cleaners/strategies.py`. -/
def RemoveColumnsC : StrategyClass :=
  { name := "RemoveColumns"
    required_options := ["remove_columns"]
    doc := docStratRemoveColumns
    cleanFn := removeColumnsClean }

/-- The strategy classes of `src/data_cleaners/strategies.py`. -/
def allStrategyClasses : List StrategyClass :=
  [RemoveDuplicatesC, RenameHeadersC, FilterValidForeignKeysC, RemoveColumnsC]

/-- `CleaningStrategy.info`: the class docstring put through `infoOf`. -/
def info (cls : StrategyClass) : List Char := infoOf cls.doc.data

/-- The docstrings of every strategy class in the repository: the abstract
base, the four classes of `strategies.py` and the four legacy classes of
`methods.py`. -/
def allStrategyDocs : List (List Char) :=
  [docBaseCleaningStrategy.data, docStratRemoveDuplicates.data, docStratRenameHeaders.data,
   docStratFilterValidForeignKeys.data, docStratRemoveColumns.data,
   docMethRemoveDuplicates.data, docMethRenameHeaders.data,
   docMethDjFilterValidForeignKeys.data, docMethRemoveColumns.data]

/-! ## The pipeline driver `clean_data` (`src/data_cleaners/base.py`)

The driver copies the input, then for each strategy class in order:
instantiates it with the working table and the full shared options,
validates, calls `clean`, and reads back `strat.dataframe`.  In the pure
value model `dataframe.copy()` is the identity; the copy is made
observable in the heap model further down. -/

/-- The driver loop on the working table.  Strategy instantiation binds the
shared options; `validate_options` runs before `clean`; the raised
exception aborts the remaining pipeline. -/
def cleanData (df : DataFrame) : List StrategyClass → Options → Except Err DataFrame
  | [], _ => .ok df
  | cls :: rest, opts =>
    match validateOptions cls opts with
    | .error e => .error e
    | .ok _ =>
      match cls.cleanFn df opts with
      | .error e => .error (.py e)
      | .ok d => cleanData d rest opts

/-- The driver loop instrumented with an execution trace: the position of
each strategy whose `clean` method is invoked is appended (whether or not
that `clean` succeeds). -/
def cleanLoop (df : DataFrame) :
    List StrategyClass → Options → Nat → List Nat → Except Err DataFrame × List Nat
  | [], _, _, tr => (.ok df, tr)
  | cls :: rest, opts, n, tr =>
    match validateOptions cls opts with
    | .error e => (.error e, tr)
    | .ok _ =>
      match cls.cleanFn df opts with
      | .error e => (.error (.py e), tr ++ [n])
      | .ok d => cleanLoop d rest opts (n + 1) (tr ++ [n])

/-- `clean_data` with its execution trace (positions of the strategies
whose `clean` ran). -/
def cleanDataTrace (df : DataFrame) (strats : List StrategyClass) (opts : Options) :
    Except Err DataFrame × List Nat :=
  cleanLoop df strats opts 0 []

/-! ## Heap model of `clean_data` for the isolation claim

A heap is a list of dataframes; a dataframe variable is an index into it.
`clean_data` first evaluates `df = dataframe.copy()`, allocating a fresh
object; every strategy then mutates that fresh object in place (the
strategies use `inplace=True` and never rebind `self.dataframe`), and
`df = strat.dataframe` keeps the same reference. -/

/-- The driver loop over the heap: the working object at `wr` is mutated
in place by each successful `clean`. -/
def heapLoop (heap : List DataFrame) (wr : Nat) :
    List StrategyClass → Options → List DataFrame × Except Err Nat
  | [], _ => (heap, .ok wr)
  | cls :: rest, opts =>
    match validateOptions cls opts with
    | .error e => (heap, .error e)
    | .ok _ =>
      match cls.cleanFn (heap.getD wr emptyDF) opts with
      | .error e => (heap, .error (.py e))
      | .ok d => heapLoop (heap.set wr d) wr rest opts

/-- `clean_data` on the heap: the caller's table lives at `r`; the copy is
allocated at the end of the heap and the pipeline runs on it. -/
def cleanDataHeap (heap : List DataFrame) (r : Nat) (strats : List StrategyClass)
    (opts : Options) : List DataFrame × Except Err Nat :=
  heapLoop (heap ++ [heap.getD r emptyDF]) heap.length strats opts

/-! ## The legacy model-sourced variant (`src/data_cleaners/methods.py`) -/

/-- The external model object bound by the legacy strategies: whether it
carries a `DataCleaner` namespace, which attribute names that namespace
exposes, and the value of `remove_duplicates_subset_fields` when bound. -/
structure LegacyModel where
  hasDataCleaner : Bool
  dcAttrs : List String
  subsetFields : List String

/-- The error message built by the legacy `RemoveDuplicates.can_use_cleaner`
when the model lacks `DataCleaner.remove_duplicates_subset_fields`. -/
def rdMissingMsg : String := "Model missing \x60DataCleaner.remove_duplicates_subset_fields\x60  attribute. This attribute is required for to know which fields to remove duplicates from. \x60remove_duplicates_subset_fields =[\x27field_1\x27, \x27field_2\x27]\x60"

/-- The legacy `RemoveDuplicates.can_use_cleaner`: the inherited check
passes vacuously (the legacy classes declare no `required_options`), then
`hasattr(self.model.DataCleaner, ...)` is evaluated — accessing
`self.model.DataCleaner` itself raises `AttributeError` when the model has
no `DataCleaner` namespace. -/
def legacyRdCanUse (m : LegacyModel) : Except PyErr (Bool × Option String) :=
  if m.hasDataCleaner then
    if m.dcAttrs.contains "remove_duplicates_subset_fields" then .ok (true, none)
    else .ok (false, some rdMissingMsg)
  else .error (.attributeError "DataCleaner")

/-- Modelled from the spec: `validate_model`, called by every legacy
`clean` but absent from the source tree, raises the "unimplemented
capability" error (`NotImplementedError`, as the test suite expects)
carrying the message produced by `can_use_cleaner` when the model cannot
be used. -/
def legacyValidateModel (m : LegacyModel) : Except PyErr Unit :=
  match legacyRdCanUse m with
  | .error e => .error e
  | .ok (true, _) => .ok ()
  | .ok (false, msg) => .error (.notImplementedError (msg.getD ""))

/-- The legacy `RemoveDuplicates.clean`: validates the model, then drops
duplicates over `model.DataCleaner.remove_duplicates_subset_fields`
keeping the last occurrence. -/
def legacyRdClean (m : LegacyModel) (df : DataFrame) : Except PyErr DataFrame := do
  legacyValidateModel m
  dropDuplicates df m.subsetFields .last

/-! ## Concrete fixtures from the spec's scenarios and the test suite -/

/-- Scenario 1 input: columns `id,name,email,age,active`, duplicate `id`
values `[1, 2, 1]` (the table of the test suite). -/
def df5 : DataFrame :=
  ⟨["id", "name", "email", "age", "active"],
   [(0, [.int 1, .str "a", .str "a@a.com", .int 1, .bool true]),
    (1, [.int 2, .str "a", .str "b@b.com", .int 2, .bool true]),
    (2, [.int 1, .str "a", .str "a@a.com", .int 1, .bool false])]⟩

/-- The options of scenario 1: subset `['id']`, keep `'last'`. -/
def opts5 : Options :=
  [("remove_duplicates_subset_fields", .strList ["id"]),
   ("remove_duplicates_keep", .str "last")]

/-- Scenario 1 expected output: the later duplicate rows win, `id` values
ordered `[2, 1]`. -/
def expected5 : DataFrame :=
  ⟨["id", "name", "email", "age", "active"],
   [(1, [.int 2, .str "a", .str "b@b.com", .int 2, .bool true]),
    (2, [.int 1, .str "a", .str "a@a.com", .int 1, .bool false])]⟩

/-- Scenario 3 foreign table: primary keys `{1, 2, 3}`. -/
def fkdf6 : DataFrame :=
  ⟨["id"], [(0, [.int 1]), (1, [.int 2]), (2, [.int 3])]⟩

/-- Scenario 3 input table: `fk` values `[1, 2, 5]`. -/
def df6 : DataFrame :=
  ⟨["name", "fk"],
   [(0, [.str "x", .int 1]), (1, [.str "y", .int 2]), (2, [.str "z", .int 5])]⟩

/-- The options of scenario 3. -/
def opts6 : Options :=
  [("filter_valid_fk_df", .df fkdf6),
   ("filter_valid_pk_field", .str "id"),
   ("filter_valid_fk_field", .str "fk")]

/-- Scenario 3 expected output: only the rows with `fk` in `{1, 2}`. -/
def expected6 : DataFrame :=
  ⟨["name", "fk"], [(0, [.str "x", .int 1]), (1, [.str "y", .int 2])]⟩

/-- A small two-row table for the pipeline counterexample and witnesses. -/
def dfC2 : DataFrame :=
  ⟨["id", "name"], [(0, [.int 1, .str "a"]), (1, [.int 2, .str "b"])]⟩

/-- A two-strategy pipeline whose second strategy is mis-configured. -/
def stratsC2 : List StrategyClass := [RenameHeadersC, RemoveDuplicatesC]

/-- Shared options configuring only the first strategy of `stratsC2`. -/
def optsC2 : Options := [("rename_headers_header_map", .strMap [("id", "customer_id")])]

/-! ## Helper lemmas -/

/-- Setting one heap cell leaves every other cell unchanged. -/
theorem getSetNe {α : Type} : ∀ (l : List α) (i j : Nat) (a : α), i ≠ j → (l.set i a)[j]? = l[j]?
  | [], _, _, _, _ => by simp
  | _ :: _, 0, 0, _, h => absurd rfl h
  | x :: xs, 0, j + 1, a, _ => by simp [List.set]
  | x :: xs, i + 1, 0, a, _ => by simp [List.set]
  | x :: xs, i + 1, j + 1, a, h => by
    simp only [List.set, List.getElem?_cons_succ]
    exact getSetNe xs i j a (fun hh => h (by rw [hh]))

/-- Reading before the appended tail sees the original list. -/
theorem getAppendLeft {α : Type} : ∀ (l l2 : List α) (r : Nat), r < l.length → (l ++ l2)[r]? = l[r]?
  | [], _, _, h => by simp at h
  | x :: xs, l2, 0, _ => by simp
  | x :: xs, l2, r + 1, h => by
    simp only [List.cons_append, List.getElem?_cons_succ]
    exact getAppendLeft xs l2 r (by simpa using h)

/-- The driver loop over the heap only ever writes the working cell `wr`. -/
theorem heapLoop_preserve (strats : List StrategyClass) :
    ∀ (heap : List DataFrame) (wr : Nat) (opts : Options) (j : Nat),
      j ≠ wr → ((heapLoop heap wr strats opts).1)[j]? = heap[j]? := by
  induction strats with
  | nil => intro heap wr opts j _; simp [heapLoop]
  | cons cls rest ih =>
    intro heap wr opts j h
    simp only [heapLoop]
    cases hv : validateOptions cls opts with
    | error e => simp
    | ok u =>
      cases hc : cls.cleanFn (heap.getD wr emptyDF) opts with
      | error e => simp
      | ok d =>
        simp only []
        exact (ih (heap.set wr d) wr opts j h).trans (getSetNe heap wr j d (fun hh => h hh.symm))

/-- The pure driver on a concatenation of pipelines: run the first part,
then feed its output to the second. -/
theorem cleanData_append (s1 s2 : List StrategyClass) :
    ∀ (df : DataFrame) (opts : Options),
      cleanData df (s1 ++ s2) opts =
        match cleanData df s1 opts with
        | .ok d => cleanData d s2 opts
        | .error e => .error e := by
  induction s1 with
  | nil => intro df opts; simp [cleanData]
  | cons cls rest ih =>
    intro df opts
    simp only [List.cons_append, cleanData]
    cases hv : validateOptions cls opts with
    | error e => rfl
    | ok u =>
      cases hc : cls.cleanFn df opts with
      | error e => rfl
      | ok d => exact ih d opts

/-- The traced driver on a concatenation of pipelines. -/
theorem cleanLoop_append (s1 s2 : List StrategyClass) :
    ∀ (df : DataFrame) (opts : Options) (n : Nat) (tr : List Nat),
      cleanLoop df (s1 ++ s2) opts n tr =
        match cleanLoop df s1 opts n tr with
        | (.ok d, tr2) => cleanLoop d s2 opts (n + s1.length) tr2
        | (.error e, tr2) => (.error e, tr2) := by
  induction s1 with
  | nil => intro df opts n tr; simp [cleanLoop]
  | cons cls rest ih =>
    intro df opts n tr
    simp only [List.cons_append, cleanLoop]
    cases hv : validateOptions cls opts with
    | error e => rfl
    | ok u =>
      cases hc : cls.cleanFn df opts with
      | error e => rfl
      | ok d =>
        show cleanLoop d (rest ++ s2) opts (n + 1) (tr ++ [n]) =
          match cleanLoop d rest opts (n + 1) (tr ++ [n]) with
          | (.ok d2, tr2) => cleanLoop d2 s2 opts (n + (rest.length + 1)) tr2
          | (.error e, tr2) => (.error e, tr2)
        rw [ih d opts (n + 1) (tr ++ [n])]
        cases hrec : cleanLoop d rest opts (n + 1) (tr ++ [n]) with
        | mk res tr2 =>
          cases res with
          | error e => rfl
          | ok d2 =>
            show cleanLoop d2 s2 opts ((n + 1) + rest.length) tr2 =
              cleanLoop d2 s2 opts (n + (rest.length + 1)) tr2
            rw [show (n + 1) + rest.length = n + (rest.length + 1) from by omega]

/-- The traced driver and the pure driver compute the same result. -/
theorem cleanLoop_fst (strats : List StrategyClass) :
    ∀ (df : DataFrame) (opts : Options) (n : Nat) (tr : List Nat),
      (cleanLoop df strats opts n tr).1 = cleanData df strats opts := by
  induction strats with
  | nil => intro df opts n tr; rfl
  | cons cls rest ih =>
    intro df opts n tr
    simp only [cleanLoop, cleanData]
    cases hv : validateOptions cls opts with
    | error e => rfl
    | ok u =>
      cases hc : cls.cleanFn df opts with
      | error e => rfl
      | ok d => exact ih d opts (n + 1) (tr ++ [n])

/-- Dropping `n` elements of a list exposes its `n`-th element. -/
theorem dropEqGetCons {α : Type} :
    ∀ (l : List α) (n : Nat) (h : n < l.length), l.drop n = l.get ⟨n, h⟩ :: l.drop (n + 1)
  | _ :: _, 0, _ => rfl
  | x :: xs, n + 1, h => by
    simp only [List.drop, List.get]
    exact dropEqGetCons xs n (by simpa using h)

/-- A row surviving `keep='last'` deduplication is a row of the input. -/
theorem dedupLast_mem (key : List Value → List Value) (rows : List (Nat × List Value)) :
    ∀ p ∈ dedupLastBy key rows, p ∈ rows := by
  induction rows with
  | nil => simp [dedupLastBy]
  | cons r rest ih =>
    intro p hp
    by_cases h : ∀ q ∈ rest, key q.2 ≠ key r.2
    · rw [dedupLastBy, if_pos h] at hp
      rcases List.mem_cons.1 hp with h1 | h1
      · exact h1 ▸ List.mem_cons_self _ _
      · exact List.mem_cons_of_mem _ (ih p h1)
    · rw [dedupLastBy, if_neg h] at hp
      exact List.mem_cons_of_mem _ (ih p hp)

/-- Every survivor of `keep='last'` deduplication is the last row of the
input carrying its key. -/
theorem dedupLast_split (key : List Value → List Value) (rows : List (Nat × List Value)) :
    ∀ p ∈ dedupLastBy key rows,
      ∃ l1 l2, rows = l1 ++ p :: l2 ∧ ∀ q ∈ l2, key q.2 ≠ key p.2 := by
  induction rows with
  | nil => simp [dedupLastBy]
  | cons r rest ih =>
    intro p hp
    by_cases h : ∀ q ∈ rest, key q.2 ≠ key r.2
    · rw [dedupLastBy, if_pos h] at hp
      rcases List.mem_cons.1 hp with h1 | h1
      · refine ⟨[], rest, by simp [h1], fun q hq => by rw [h1]; exact h q hq⟩
      · rcases ih p h1 with ⟨l1, l2, hsplit, hlast⟩
        exact ⟨r :: l1, l2, by rw [hsplit]; rfl, hlast⟩
    · rw [dedupLastBy, if_neg h] at hp
      rcases ih p hp with ⟨l1, l2, hsplit, hlast⟩
      exact ⟨r :: l1, l2, by rw [hsplit]; rfl, hlast⟩

/-- No key of the input is lost by `keep='last'` deduplication. -/
theorem dedupLast_complete (key : List Value → List Value) (rows : List (Nat × List Value)) :
    ∀ p ∈ rows, ∃ q ∈ dedupLastBy key rows, key q.2 = key p.2 := by
  induction rows with
  | nil => simp
  | cons r rest ih =>
    intro p hp
    by_cases h : ∀ q ∈ rest, key q.2 ≠ key r.2
    · rw [dedupLastBy, if_pos h]
      rcases List.mem_cons.1 hp with h1 | h1
      · exact ⟨r, List.mem_cons_self _ _, by rw [h1]⟩
      · rcases ih p h1 with ⟨q, hq, hkey⟩
        exact ⟨q, List.mem_cons_of_mem _ hq, hkey⟩
    · rw [dedupLastBy, if_neg h]
      push_neg at h
      rcases List.mem_cons.1 hp with h1 | h1
      · rcases h with ⟨q0, hq0, hkey0⟩
        rcases ih q0 hq0 with ⟨q, hq, hkey⟩
        exact ⟨q, hq, by rw [hkey, hkey0, h1]⟩
      · exact ih p h1

/-- The surviving rows of `keep='last'` deduplication have pairwise
distinct keys. -/
theorem dedupLast_pairwise (key : List Value → List Value) (rows : List (Nat × List Value)) :
    (dedupLastBy key rows).Pairwise (fun a b => key b.2 ≠ key a.2) := by
  induction rows with
  | nil => simp [dedupLastBy]
  | cons r rest ih =>
    by_cases h : ∀ q ∈ rest, key q.2 ≠ key r.2
    · rw [dedupLastBy, if_pos h]
      exact List.Pairwise.cons (fun b hb => h b (dedupLast_mem key rest b hb)) ih
    · rw [dedupLastBy, if_neg h]
      exact ih

/-- A list with pairwise distinct keys is left unchanged by `keep='last'`
deduplication. -/
theorem dedupLast_eq_self (key : List Value → List Value) (rows : List (Nat × List Value))
    (h : rows.Pairwise (fun a b => key b.2 ≠ key a.2)) : dedupLastBy key rows = rows := by
  induction rows with
  | nil => rfl
  | cons r rest ih =>
    rcases List.pairwise_cons.1 h with ⟨h1, h2⟩
    rw [dedupLastBy, if_pos h1, ih h2]

/-! ## Claim theorems -/

/-- C1: for every heap, caller table reference, strategy list and shared
configuration, the caller's original table is structurally equal before
and after `clean_data`: the driver allocates a private copy before any
strategy executes, and every in-place mutation targets that copy. -/
theorem clean_data_isolation (heap : List DataFrame) (r : Nat) (strats : List StrategyClass)
    (opts : Options) (h : r < heap.length) :
    ((cleanDataHeap heap r strats opts).1)[r]? = heap[r]? := by
  unfold cleanDataHeap
  rw [heapLoop_preserve strats _ _ _ _ (Nat.ne_of_lt h)]
  exact getAppendLeft heap [heap.getD r emptyDF] r h

/-- Witness for C1: running the two-strategy pipeline on a concrete
one-table heap leaves the caller's table untouched. -/
theorem clean_data_isolation_witness :
    0 < [dfC2].length ∧ ((cleanDataHeap [dfC2] 0 stratsC2 optsC2).1)[0]? = [dfC2][0]? :=
  ⟨by decide, clean_data_isolation [dfC2] 0 stratsC2 optsC2 (by decide)⟩

/-- C4: sequential composition — whenever the one-strategy pipeline `[A]`
returns a table, running `[A, B]` equals feeding that table into `[B]`. -/
theorem clean_data_sequential_composition (df : DataFrame) (A B : StrategyClass)
    (opts : Options) (d : DataFrame) (h : cleanData df [A] opts = .ok d) :
    cleanData df [A, B] opts = cleanData d [B] opts := by
  have happ := cleanData_append [A] [B] df opts
  rw [h] at happ
  exact happ

/-- Witness for C4: composing two concrete rename pipelines. -/
theorem clean_data_sequential_composition_witness :
    cleanData dfC2 [RenameHeadersC] optsC2 =
      .ok ⟨["customer_id", "name"], [(0, [.int 1, .str "a"]), (1, [.int 2, .str "b"])]⟩ ∧
    cleanData dfC2 [RenameHeadersC, RenameHeadersC] optsC2 =
      cleanData ⟨["customer_id", "name"], [(0, [.int 1, .str "a"]), (1, [.int 2, .str "b"])]⟩
        [RenameHeadersC] optsC2 :=
  ⟨by decide,
   clean_data_sequential_composition dfC2 RenameHeadersC RenameHeadersC optsC2
     ⟨["customer_id", "name"], [(0, [.int 1, .str "a"]), (1, [.int 2, .str "b"])]⟩ (by decide)⟩

/-- C2 counterexample: in the pipeline `[RenameHeaders, RemoveDuplicates]`
whose shared configuration only configures the first strategy,
`clean_data` does raise `MissingOptionsError`, but the first strategy's
`clean` HAS executed (the execution trace is `[0]`, not `[]`), so the
claim's "no strategy's clean executes" is false. -/
theorem clean_data_gating_cex :
    (cleanDataTrace dfC2 stratsC2 optsC2).1 =
      .error (.missingOptions ["remove_duplicates_subset_fields", "remove_duplicates_keep"]) ∧
    (cleanDataTrace dfC2 stratsC2 optsC2).2 = [0] ∧ ([0] : List Nat) ≠ [] := by
  refine ⟨?_, ?_, by decide⟩ <;> decide

/-- C2 (amended): if the strategy at position `i` has required
configuration keys missing and the pipeline prefix before it runs to
completion, then `clean_data` raises `MissingOptionsError` with that
strategy's missing-key list, and the cleans that executed are exactly the
strategies before position `i` — the mis-configured strategy and everything
after it never run, and no output is returned. -/
theorem clean_data_gating (df : DataFrame) (strats : List StrategyClass) (opts : Options)
    (i : Nat) (m : List String) (d : DataFrame) (hi : i < strats.length)
    (hm1 : missingOf (strats.get ⟨i, hi⟩) opts = .ok m) (hm2 : m ≠ [])
    (hpre : cleanDataTrace df (strats.take i) opts = (.ok d, List.range i)) :
    cleanDataTrace df strats opts = (.error (.missingOptions m), List.range i) := by
  unfold cleanDataTrace at hpre ⊢
  conv_lhs => rw [← List.take_append_drop i strats]
  rw [cleanLoop_append, hpre]
  have hlen : (strats.take i).length = i := by
    simp only [List.length_take]
    omega
  rw [dropEqGetCons strats i hi]
  show cleanLoop d (strats.get ⟨i, hi⟩ :: strats.drop (i + 1)) opts (0 + (strats.take i).length)
      (List.range i) = _
  rw [hlen]
  have hv : validateOptions (strats.get ⟨i, hi⟩) opts = .error (.missingOptions m) := by
    cases m with
    | nil => exact absurd rfl hm2
    | cons a l =>
      simp only [validateOptions, canUseCleaner, hm1]
      rfl
  simp only [cleanLoop, hv]

/-- Witness for the amended C2: in the concrete pipeline the rename
strategy runs, then the mis-configured deduplication strategy aborts the
run with its full missing-key list. -/
theorem clean_data_gating_witness :
    missingOf (stratsC2.get ⟨1, by decide⟩) optsC2 =
      .ok ["remove_duplicates_subset_fields", "remove_duplicates_keep"] ∧
    cleanDataTrace dfC2 (stratsC2.take 1) optsC2 =
      (.ok ⟨["customer_id", "name"], [(0, [.int 1, .str "a"]), (1, [.int 2, .str "b"])]⟩,
        List.range 1) ∧
    cleanDataTrace dfC2 stratsC2 optsC2 =
      (.error (.missingOptions ["remove_duplicates_subset_fields", "remove_duplicates_keep"]),
        List.range 1) :=
  ⟨by decide, by decide,
   clean_data_gating dfC2 stratsC2 optsC2 1
     ["remove_duplicates_subset_fields", "remove_duplicates_keep"]
     ⟨["customer_id", "name"], [(0, [.int 1, .str "a"]), (1, [.int 2, .str "b"])]⟩
     (by decide) (by decide) (by decide) (by decide)⟩

/-- C3 counterexample: constructing `RemoveDuplicates` with the single
option `required_options=[]` makes `validate_options` return normally even
though a name of the class-declared `required_options` is not bound on the
instance — so "raises iff a declared required name is unbound" is false as
stated. -/
theorem validate_options_cex :
    validateOptions RemoveDuplicatesC [("required_options", OptVal.strList [])] = .ok () ∧
    "remove_duplicates_subset_fields" ∈ RemoveDuplicatesC.required_options ∧
    hasattrB [("required_options", OptVal.strList [])] "remove_duplicates_subset_fields"
      = false := by
  refine ⟨?_, ?_, ?_⟩ <;> decide

/-- C3 (amended): `validate_options` raises `MissingOptionsError` iff some
name of the instance's effective `required_options` — the sequence Python
obtains by iterating the bound `required_options` configuration entry when
one is present (a list yields its elements, a string its characters, a
mapping its keys, a dataframe its column labels; a non-iterable binding
instead raises a propagated `TypeError`), otherwise the class-declared
list — is not bound on the instance; the error carries exactly the unbound
names, in iteration order (an order-preserving sublist containing every
unbound required name and only unbound names); when nothing is missing,
`can_use_cleaner` returns `(true, [])` and `validate_options` returns
normally. -/
theorem validate_options_characterization (cls : StrategyClass) (opts : Options) :
    (∀ e, requiredOptionsOf cls opts = .error e →
      canUseCleaner cls opts = .error e ∧ validateOptions cls opts = .error (.py e)) ∧
    (∀ req m, requiredOptionsOf cls opts = .ok req →
      m = req.filter (fun o => !(hasattrB opts o)) →
      missingOf cls opts = .ok m ∧
      (validateOptions cls opts = .error (.missingOptions m) ↔ m ≠ []) ∧
      (m = [] → canUseCleaner cls opts = .ok (true, []) ∧ validateOptions cls opts = .ok ()) ∧
      m.Sublist req ∧
      (∀ o ∈ req, hasattrB opts o = false → o ∈ m) ∧
      (∀ o ∈ m, hasattrB opts o = false) ∧
      (m ≠ [] ↔ ∃ o ∈ req, hasattrB opts o = false)) := by
  constructor
  · intro e he
    have h1 : missingOf cls opts = .error e := by
      rw [missingOf, he]
    have h2 : canUseCleaner cls opts = .error e := by
      rw [canUseCleaner, h1]
    exact ⟨h2, by rw [validateOptions, h2]⟩
  · intro req m hreq hm
    have hmiss : missingOf cls opts = .ok m := by
      rw [hm, missingOf, hreq]
    have hcu : canUseCleaner cls opts = .ok (m.isEmpty, m) := by
      rw [canUseCleaner, hmiss]
    have hvo : validateOptions cls opts =
        if m.isEmpty then .ok () else .error (.missingOptions m) := by
      rw [validateOptions, hcu]
    refine ⟨hmiss, ?_, ?_, ?_, ?_, ?_, ?_⟩
    · cases m with
      | nil => simp [hvo]
      | cons a l => simp [hvo]
    · intro hnil
      subst hnil
      exact ⟨hcu, by rw [hvo]; rfl⟩
    · rw [hm]
      exact List.filter_sublist _
    · intro o ho hf
      rw [hm]
      exact List.mem_filter.2 ⟨ho, by rw [hf]; rfl⟩
    · intro o ho
      rw [hm] at ho
      have := (List.mem_filter.1 ho).2
      cases hb : hasattrB opts o
      · rfl
      · rw [hb] at this
        simp at this
    · constructor
      · intro hne
        cases hmm : m with
        | nil => exact absurd hmm hne
        | cons a l =>
          have ha : a ∈ req.filter (fun o => !(hasattrB opts o)) := by
            rw [← hm, hmm]
            exact List.mem_cons_self _ _
          rcases List.mem_filter.1 ha with ⟨h1, h2⟩
          refine ⟨a, h1, ?_⟩
          cases hb : hasattrB opts a
          · rfl
          · rw [hb] at h2
            simp at h2
      · rintro ⟨o, ho, hf⟩
        have : o ∈ m := by
          rw [hm]
          exact List.mem_filter.2 ⟨ho, by rw [hf]; rfl⟩
        exact List.ne_nil_of_mem this

/-- Witness for the amended C3: the fully configured `RemoveDuplicates`
instance of scenario 1 has no unbound required name, validates cleanly,
and `can_use_cleaner` reports `(true, [])`. -/
theorem validate_options_characterization_witness :
    missingOf RemoveDuplicatesC opts5 = .ok [] ∧
    canUseCleaner RemoveDuplicatesC opts5 = .ok (true, []) ∧
    validateOptions RemoveDuplicatesC opts5 = .ok () := by
  have h := (validate_options_characterization RemoveDuplicatesC opts5).2
    ["remove_duplicates_subset_fields", "remove_duplicates_keep"] []
    (by decide) (by decide)
  exact ⟨h.1, (h.2.2.1 rfl).1, (h.2.2.1 rfl).2⟩

/-- C10: a configuration entry named `required_options` is bound onto the
instance by `__init__` and shadows the class-declared contract: with the
option `required_options=[]`, `can_use_cleaner` returns `(true, [])` and
`validate_options` succeeds for every strategy type, and in `clean_data`
the strategy's `clean` runs unvalidated (its position enters the
execution trace). -/
theorem required_options_override (cls : StrategyClass) (df : DataFrame) (opts : Options)
    (h : List.lookup "required_options" opts = some (OptVal.strList [])) :
    canUseCleaner cls opts = .ok (true, []) ∧
    validateOptions cls opts = .ok () ∧
    (cleanDataTrace df [cls] opts).2 = [0] := by
  have hreq : requiredOptionsOf cls opts = .ok [] := by
    rw [requiredOptionsOf, h]
  have hmiss : missingOf cls opts = .ok [] := by
    rw [missingOf, hreq]
    rfl
  have hcu : canUseCleaner cls opts = .ok (true, []) := by
    rw [canUseCleaner, hmiss]
    rfl
  have hval : validateOptions cls opts = .ok () := by
    rw [validateOptions, hcu]
    rfl
  refine ⟨hcu, hval, ?_⟩
  rw [cleanDataTrace]
  simp only [cleanLoop, hval]
  cases hc : cls.cleanFn df opts with
  | error e => rfl
  | ok d => rfl

/-- Witness for C10: `RemoveDuplicates` with only `required_options=[]`
passes validation and its `clean` is invoked by the driver. -/
theorem required_options_override_witness :
    List.lookup "required_options" [("required_options", OptVal.strList [])]
      = some (OptVal.strList []) ∧
    canUseCleaner RemoveDuplicatesC [("required_options", OptVal.strList [])] = .ok (true, []) ∧
    validateOptions RemoveDuplicatesC [("required_options", OptVal.strList [])] = .ok () ∧
    (cleanDataTrace dfC2 [RemoveDuplicatesC] [("required_options", OptVal.strList [])]).2
      = [0] :=
  ⟨by decide,
   required_options_override RemoveDuplicatesC dfC2
     [("required_options", OptVal.strList [])] (by decide)⟩

/-- A row surviving `keep='first'` deduplication has a key outside the
accumulator and is the earliest row of the remaining input carrying it. -/
theorem dedupFirst_split (key : List Value → List Value) :
    ∀ (rows : List (Nat × List Value)) (seen : List (List Value)) (p : Nat × List Value),
      p ∈ dedupFirstAux key seen rows →
        key p.2 ∉ seen ∧
        ∃ l1 l2, rows = l1 ++ p :: l2 ∧ ∀ q ∈ l1, key q.2 ≠ key p.2 := by
  intro rows
  induction rows with
  | nil => intro seen p hp; simp [dedupFirstAux] at hp
  | cons r rest ih =>
    intro seen p hp
    by_cases hmem : key r.2 ∈ seen
    · rw [dedupFirstAux, if_pos hmem] at hp
      rcases ih seen p hp with ⟨hnot, l1, l2, hsplit, hne⟩
      refine ⟨hnot, r :: l1, l2, by rw [hsplit]; rfl, ?_⟩
      intro q hq
      rcases List.mem_cons.1 hq with rfl | hq2
      · exact fun heq => hnot (heq ▸ hmem)
      · exact hne q hq2
    · rw [dedupFirstAux, if_neg hmem] at hp
      rcases List.mem_cons.1 hp with rfl | hp2
      · exact ⟨hmem, [], rest, rfl, by simp⟩
      · rcases ih (key r.2 :: seen) p hp2 with ⟨hnot, l1, l2, hsplit, hne⟩
        have hnr : key p.2 ≠ key r.2 :=
          fun heq => hnot (by rw [heq]; exact List.mem_cons_self _ _)
        refine ⟨fun hin => hnot (List.mem_cons_of_mem _ hin), r :: l1, l2,
          by rw [hsplit]; rfl, ?_⟩
        intro q hq
        rcases List.mem_cons.1 hq with rfl | hq2
        · exact fun heq => hnr heq.symm
        · exact hne q hq2

/-- No key outside the accumulator is lost by `keep='first'`
deduplication. -/
theorem dedupFirst_complete (key : List Value → List Value) :
    ∀ (rows : List (Nat × List Value)) (seen : List (List Value)) (p : Nat × List Value),
      p ∈ rows →
        key p.2 ∈ seen ∨ ∃ q ∈ dedupFirstAux key seen rows, key q.2 = key p.2 := by
  intro rows
  induction rows with
  | nil => intro seen p hp; simp at hp
  | cons r rest ih =>
    intro seen p hp
    by_cases hmem : key r.2 ∈ seen
    · rw [dedupFirstAux, if_pos hmem]
      rcases List.mem_cons.1 hp with rfl | hp2
      · exact Or.inl hmem
      · exact ih seen p hp2
    · rw [dedupFirstAux, if_neg hmem]
      rcases List.mem_cons.1 hp with rfl | hp2
      · exact Or.inr ⟨p, List.mem_cons_self _ _, rfl⟩
      · rcases ih (key r.2 :: seen) p hp2 with hin | ⟨q, hq, hkey⟩
        · rcases List.mem_cons.1 hin with heq | hin2
          · exact Or.inr ⟨r, List.mem_cons_self _ _, heq.symm⟩
          · exact Or.inl hin2
        · exact Or.inr ⟨q, List.mem_cons_of_mem _ hq, hkey⟩

/-- C5: `RemoveDuplicates` on scenario 1 keeps the later duplicate rows
(`id` values ordered `[2, 1]`); in general, under `keep='first'` every
survivor is the first input row bearing its subset-key, under `keep='last'`
every survivor is the last input row bearing its subset-key, in both cases
no key is lost, and under the drop-all policy the survivors are exactly
the rows whose key occurs once in the input (no row of a duplicate group
survives). -/
theorem remove_duplicates_correct :
    (RemoveDuplicatesC.cleanFn df5 opts5 = .ok expected5 ∧
      colVals expected5 "id" = [.int 2, .int 1]) ∧
    (∀ (df : DataFrame) (subset : List String) (d : DataFrame),
      dropDuplicates df subset .first = .ok d →
        d.cols = df.cols ∧
        (∀ p ∈ d.rows, ∃ l1 l2, df.rows = l1 ++ p :: l2 ∧
          ∀ q ∈ l1, keyFn df.cols subset q.2 ≠ keyFn df.cols subset p.2) ∧
        (∀ p ∈ df.rows, ∃ q ∈ d.rows,
          keyFn df.cols subset q.2 = keyFn df.cols subset p.2)) ∧
    (∀ (df : DataFrame) (subset : List String) (d : DataFrame),
      dropDuplicates df subset .last = .ok d →
        d.cols = df.cols ∧
        (∀ p ∈ d.rows, ∃ l1 l2, df.rows = l1 ++ p :: l2 ∧
          ∀ q ∈ l2, keyFn df.cols subset q.2 ≠ keyFn df.cols subset p.2) ∧
        (∀ p ∈ df.rows, ∃ q ∈ d.rows,
          keyFn df.cols subset q.2 = keyFn df.cols subset p.2)) ∧
    (∀ (df : DataFrame) (subset : List String) (d : DataFrame),
      dropDuplicates df subset .dropAll = .ok d →
        (∀ p ∈ d.rows,
          (df.rows.filter (fun q =>
            decide (keyFn df.cols subset q.2 = keyFn df.cols subset p.2))).length = 1) ∧
        (∀ p ∈ df.rows,
          (df.rows.filter (fun q =>
            decide (keyFn df.cols subset q.2 = keyFn df.cols subset p.2))).length = 1 →
            p ∈ d.rows)) := by
  refine ⟨⟨by decide, by decide⟩, ?_, ?_, ?_⟩
  · intro df subset d h
    by_cases hg : ∀ c ∈ subset, c ∈ df.cols
    · unfold dropDuplicates at h
      rw [if_pos hg] at h
      have h2 : DataFrame.mk df.cols (dedupFirstAux (keyFn df.cols subset) [] df.rows) = d := by
        injection h
      subst h2
      refine ⟨rfl, ?_, ?_⟩
      · intro p hp
        exact (dedupFirst_split _ df.rows [] p hp).2
      · intro p hp
        rcases dedupFirst_complete _ df.rows [] p hp with hin | hq
        · simp at hin
        · exact hq
    · unfold dropDuplicates at h
      rw [if_neg hg] at h
      cases h
  · intro df subset d h
    by_cases hg : ∀ c ∈ subset, c ∈ df.cols
    · unfold dropDuplicates at h
      rw [if_pos hg] at h
      have h2 : DataFrame.mk df.cols (dedupLastBy (keyFn df.cols subset) df.rows) = d := by
        injection h
      subst h2
      exact ⟨rfl, fun p hp => dedupLast_split _ _ p hp, fun p hp => dedupLast_complete _ _ p hp⟩
    · unfold dropDuplicates at h
      rw [if_neg hg] at h
      cases h
  · intro df subset d h
    by_cases hg : ∀ c ∈ subset, c ∈ df.cols
    · unfold dropDuplicates at h
      rw [if_pos hg] at h
      have h2 : DataFrame.mk df.cols (dedupDropAll (keyFn df.cols subset) df.rows) = d := by
        injection h
      subst h2
      constructor
      · intro p hp
        have hp2 : p ∈ df.rows.filter (fun r =>
            (df.rows.filter (fun q =>
              decide (keyFn df.cols subset q.2 = keyFn df.cols subset r.2))).length == 1) := hp
        simpa using (List.mem_filter.1 hp2).2
      · intro p hp hlen
        show p ∈ df.rows.filter (fun r =>
            (df.rows.filter (fun q =>
              decide (keyFn df.cols subset q.2 = keyFn df.cols subset r.2))).length == 1)
        exact List.mem_filter.2 ⟨hp, by simp [hlen]⟩
    · unfold dropDuplicates at h
      rw [if_neg hg] at h
      cases h

/-- Witness for C5: the keep-last characterization instantiated on
scenario 1. -/
theorem remove_duplicates_correct_witness :
    dropDuplicates df5 ["id"] .last = .ok expected5 ∧
    (expected5.cols = df5.cols ∧
      (∀ p ∈ expected5.rows, ∃ l1 l2, df5.rows = l1 ++ p :: l2 ∧
        ∀ q ∈ l2, keyFn df5.cols ["id"] q.2 ≠ keyFn df5.cols ["id"] p.2) ∧
      (∀ p ∈ df5.rows, ∃ q ∈ expected5.rows,
        keyFn df5.cols ["id"] q.2 = keyFn df5.cols ["id"] p.2)) :=
  ⟨by decide, remove_duplicates_correct.2.2.1 df5 ["id"] expected5 (by decide)⟩

/-- A value of the key column is outside the invalid set (the set
difference computed by `FilterValidForeignKeys.clean`) exactly when it
occurs among the primary-key values. -/
theorem notMemDiffEq (v : Value) (fkvals pkvals : List Value) (hv : v ∈ fkvals) :
    (!decide (v ∈ fkvals.filter (fun w => !decide (w ∈ pkvals)))) = decide (v ∈ pkvals) := by
  by_cases hpk : v ∈ pkvals
  · simp [List.mem_filter, hpk]
  · simp [List.mem_filter, hpk, hv]

/-- C6: `FilterValidForeignKeys` keeps exactly the rows whose key-column
value occurs in the foreign table's key column (the code drops the rows
whose value lies in the difference of the two value sets); on scenario 3
only the rows with `fk` in `{1, 2}` remain. -/
theorem filter_valid_fk_correct :
    (∀ (df fkdf : DataFrame) (pkf fkf : String) (d : DataFrame),
      fkFilter df fkdf pkf fkf = .ok d →
        d.cols = df.cols ∧
        d.rows = df.rows.filter
          (fun p => decide (p.2.getD (colIdx df.cols fkf) (.int 0) ∈ colVals fkdf pkf))) ∧
    (FilterValidForeignKeysC.cleanFn df6 opts6 = .ok expected6 ∧
      colVals expected6 "fk" = [.int 1, .int 2]) := by
  refine ⟨?_, by decide, by decide⟩
  intro df fkdf pkf fkf d h
  by_cases h1 : fkf ∈ df.cols
  · by_cases h2 : pkf ∈ fkdf.cols
    · unfold fkFilter at h
      rw [if_pos h1, if_pos h2] at h
      have h3 : DataFrame.mk df.cols (df.rows.filter
          (fun p => !(decide (p.2.getD (colIdx df.cols fkf) (.int 0) ∈
            (colVals df fkf).filter (fun v => !(decide (v ∈ colVals fkdf pkf))))))) = d := by
        injection h
      subst h3
      refine ⟨rfl, ?_⟩
      show df.rows.filter _ = df.rows.filter _
      apply List.filter_congr
      intro p hp
      have hv : p.2.getD (colIdx df.cols fkf) (.int 0) ∈ colVals df fkf :=
        List.mem_map_of_mem _ hp
      exact notMemDiffEq _ _ _ hv
    · unfold fkFilter at h
      rw [if_pos h1, if_neg h2] at h
      cases h
  · unfold fkFilter at h
    rw [if_neg h1] at h
    cases h

/-- Witness for C6: the row-filter characterization instantiated on
scenario 3. -/
theorem filter_valid_fk_correct_witness :
    fkFilter df6 fkdf6 "id" "fk" = .ok expected6 ∧
    (expected6.cols = df6.cols ∧
      expected6.rows = df6.rows.filter
        (fun p => decide (p.2.getD (colIdx df6.cols "fk") (.int 0) ∈ colVals fkdf6 "id"))) :=
  ⟨by decide, filter_valid_fk_correct.1 df6 fkdf6 "id" "fk" expected6 (by decide)⟩

/-- C7: `RemoveDuplicates` with `keep='last'` is idempotent — feeding its
output back through the same deduplication returns it unchanged. -/
theorem remove_duplicates_last_idempotent (df : DataFrame) (subset : List String)
    (d : DataFrame) (h : dropDuplicates df subset .last = .ok d) :
    dropDuplicates d subset .last = .ok d := by
  by_cases hg : ∀ c ∈ subset, c ∈ df.cols
  · unfold dropDuplicates at h
    rw [if_pos hg] at h
    have h2 : DataFrame.mk df.cols (dedupLastBy (keyFn df.cols subset) df.rows) = d := by
      injection h
    subst h2
    unfold dropDuplicates
    rw [if_pos hg]
    show Except.ok (DataFrame.mk df.cols (dedupLastBy (keyFn df.cols subset)
      (dedupLastBy (keyFn df.cols subset) df.rows))) = _
    rw [dedupLast_eq_self _ _ (dedupLast_pairwise _ _)]
  · unfold dropDuplicates at h
    rw [if_neg hg] at h
    cases h

/-- Witness for C7: idempotence on scenario 1. -/
theorem remove_duplicates_last_idempotent_witness :
    dropDuplicates df5 ["id"] .last = .ok expected5 ∧
    dropDuplicates expected5 ["id"] .last = .ok expected5 :=
  ⟨by decide, remove_duplicates_last_idempotent df5 ["id"] expected5 (by decide)⟩

set_option maxRecDepth 40000 in
/-- C8: for every strategy class of the repository, `info()` returns the
class docstring normalized to a single line — equal to the spec-side
normalization (leading indentation removed, each newline collapsed to a
single space) and free of newline characters. -/
theorem info_single_line :
    (∀ cls ∈ allStrategyClasses, info cls = specNormalize cls.doc.data) ∧
    (∀ d ∈ allStrategyDocs,
      infoOf d = specNormalize d ∧ (infoOf d).all (fun c => !(c == '\n')) = true) := by
  constructor
  · intro cls hcls
    simp only [allStrategyClasses, List.mem_cons, List.not_mem_nil, or_false] at hcls
    rcases hcls with rfl | rfl | rfl | rfl <;> decide
  · decide

/-- Witness for C8: `info` on the `RemoveDuplicates` class agrees with the
spec normalization of its docstring. -/
theorem info_single_line_witness :
    info RemoveDuplicatesC = specNormalize RemoveDuplicatesC.doc.data :=
  info_single_line.1 RemoveDuplicatesC (List.mem_cons_self _ _)

/-- C9: in the legacy model-sourced variant, when the bound model carries
a `DataCleaner` namespace that lacks `remove_duplicates_subset_fields`,
running the legacy `RemoveDuplicates.clean` raises the unimplemented-
capability error (`NotImplementedError`) whose message names the missing
attribute and its expected shape. -/
theorem legacy_unsupported_model (m : LegacyModel) (df : DataFrame)
    (h1 : m.hasDataCleaner = true)
    (h2 : m.dcAttrs.contains "remove_duplicates_subset_fields" = false) :
    legacyRdClean m df = .error (.notImplementedError rdMissingMsg) ∧
    hasSubstring "DataCleaner.remove_duplicates_subset_fields".data rdMissingMsg.data = true ∧
    hasSubstring "remove_duplicates_subset_fields =[\x27field_1\x27, \x27field_2\x27]".data
      rdMissingMsg.data = true := by
  refine ⟨?_, by decide, by decide⟩
  have h2p : "remove_duplicates_subset_fields" ∉ m.dcAttrs := by simpa using h2
  have hv : legacyValidateModel m = .error (.notImplementedError rdMissingMsg) := by
    simp [legacyValidateModel, legacyRdCanUse, h1, h2p]
  simp [legacyRdClean, hv, Bind.bind, Except.bind]

/-- Witness for C9: a concrete model with an empty `DataCleaner` namespace
makes the legacy `clean` fail with the descriptive error. -/
theorem legacy_unsupported_model_witness :
    (LegacyModel.mk true [] []).hasDataCleaner = true ∧
    (LegacyModel.mk true [] []).dcAttrs.contains "remove_duplicates_subset_fields" = false ∧
    legacyRdClean (LegacyModel.mk true [] []) df5 = .error (.notImplementedError rdMissingMsg) :=
  ⟨rfl, by decide,
   (legacy_unsupported_model (LegacyModel.mk true [] []) df5 rfl (by decide)).1⟩
